import Mathlib

/-!
Verification of the client-side loading, decoding and segmentation pipeline of
the Cycling-heatmap frontend (src/public/app.js) and of the cache lifecycle of
its service worker (src/unnamed/part_000).

Modelling conventions:
* Byte buffers are lists of bytes (Fin 256); the little-endian
  DataView.getInt32 reads of app.js become readUInt32le and toInt32.
* JavaScript numbers on the decode path are modelled by exact rationals.
  The floating-point haversine test (haversine(prev, cur) > maxGapMeters,
  app.js lines 198-206 and 221-227) is kept abstract as a boolean parameter
  gapExceeded, because IEEE-754 transcendental arithmetic has no exact shallow
  embedding; every theorem about the segmentation control flow is proved for
  every value of this parameter, hence in particular for the one the code
  computes.
* isFinite applied to the result of an IEEE-754 double division is modelled by
  jsFinite: the quotient is finite unless its magnitude reaches the double
  overflow threshold 2^1024.
-/

/-- The sentinel field value, app.js line 190. -/
def INT32_MIN : Int := -2147483648

/-- One byte of the buffer, read with a default of 0 (indices used by the
decoder are always in bounds). -/
def readByte (bytes : List (Fin 256)) (i : Nat) : Nat := (bytes.getD i 0).val

/-- Little-endian assembly of four consecutive bytes into an unsigned 32-bit
value, as DataView.getInt32 with littleEndian = true does. -/
def readUInt32le (bytes : List (Fin 256)) (off : Nat) : Nat :=
  readByte bytes off + 256 * readByte bytes (off + 1) +
    65536 * readByte bytes (off + 2) + 16777216 * readByte bytes (off + 3)

/-- Reinterpretation of an unsigned 32-bit value as a signed one
(twos-complement). -/
def toInt32 (n : Nat) : Int :=
  if n < 2147483648 then (n : Int) else (n : Int) - 4294967296

/-- view.getInt32(off, true), app.js lines 210-211. -/
def getInt32 (bytes : List (Fin 256)) (off : Nat) : Int :=
  toInt32 (readUInt32le bytes off)

/-- The record extraction of parseSegments: countPairs = (byteLength / 8) | 0
and the loop reading pairs at i*8 and i*8+4 (app.js lines 189, 209-211). -/
def decodeRecords (bytes : List (Fin 256)) : List (Int × Int) :=
  (List.range (bytes.length / 8)).map fun i =>
    (getInt32 bytes (8 * i), getInt32 bytes (8 * i + 4))

/-- Finiteness of the IEEE-754 double quotient (the isFinite check of app.js
line 220): the division result is non-finite exactly when the magnitude of the
exact quotient reaches the double overflow threshold 2^1024. -/
def jsFinite (q : ℚ) : Bool := decide (|q| < (2 : ℚ) ^ 1024)

/-- Abstract embedding of the boolean haversine(prev, cur) > maxGapMeters test
(app.js lines 222-223); see the module docstring. -/
abbrev GapFn : Type := (ℚ × ℚ) → (ℚ × ℚ) → Bool

/-- State of the record loop of parseSegments: the closed segments pushed so
far, the current open segment, and the previous point (null at start and after
a sentinel), app.js lines 192-193 and 208. -/
structure ParseState where
  segs : List (List (ℚ × ℚ))
  current : List (ℚ × ℚ)
  prev : Option (ℚ × ℚ)
deriving Repr, DecidableEq

/-- Closing a segment: if (current.length > 1) segs.push(current)
(app.js lines 213, 224, 231). -/
def closeSeg (segs : List (List (ℚ × ℚ))) (current : List (ℚ × ℚ)) :
    List (List (ℚ × ℚ)) :=
  if 1 < current.length then segs ++ [current] else segs

/-- One iteration of the record loop of parseSegments (app.js lines 209-230):
sentinel check, fixed-point decode, finiteness check, gap split, append. -/
def stepRecord (gapExceeded : GapFn) (st : ParseState) (rec : Int × Int) :
    ParseState :=
  if rec.1 = INT32_MIN ∧ rec.2 = INT32_MIN then
    ⟨closeSeg st.segs st.current, [], none⟩
  else
    let lat : ℚ := (rec.1 : ℚ) / 10000000
    let lon : ℚ := (rec.2 : ℚ) / 10000000
    if jsFinite lat = false ∨ jsFinite lon = false then st
    else
      let split : Bool :=
        match st.prev with
        | some p => gapExceeded p (lat, lon)
        | none => false
      let segs := if split then closeSeg st.segs st.current else st.segs
      let current : List (ℚ × ℚ) := if split then [] else st.current
      ⟨segs, current ++ [(lat, lon)], some (lat, lon)⟩

/-- The record-level segmentation: fold of stepRecord over the records, then
the final close of app.js line 231. -/
def parseRecords (gapExceeded : GapFn) (recs : List (Int × Int)) :
    List (List (ℚ × ℚ)) :=
  let st := recs.foldl (stepRecord gapExceeded) ⟨[], [], none⟩
  closeSeg st.segs st.current

/-- parseSegments of app.js lines 185-233, over a byte buffer. -/
def parseSegments (gapExceeded : GapFn) (bytes : List (Fin 256)) :
    List (List (ℚ × ℚ)) :=
  parseRecords gapExceeded (decodeRecords bytes)

/-- Variant of stepRecord with the non-finite skip branch removed; used to
state that the branch is unreachable. -/
def stepRecordNoSkip (gapExceeded : GapFn) (st : ParseState) (rec : Int × Int) :
    ParseState :=
  if rec.1 = INT32_MIN ∧ rec.2 = INT32_MIN then
    ⟨closeSeg st.segs st.current, [], none⟩
  else
    let lat : ℚ := (rec.1 : ℚ) / 10000000
    let lon : ℚ := (rec.2 : ℚ) / 10000000
    let split : Bool :=
      match st.prev with
      | some p => gapExceeded p (lat, lon)
      | none => false
    let segs := if split then closeSeg st.segs st.current else st.segs
    let current : List (ℚ × ℚ) := if split then [] else st.current
    ⟨segs, current ++ [(lat, lon)], some (lat, lon)⟩

/-- parseSegments with the non-finite skip branch removed. -/
def parseSegmentsNoSkip (gapExceeded : GapFn) (bytes : List (Fin 256)) :
    List (List (ℚ × ℚ)) :=
  let st := (decodeRecords bytes).foldl (stepRecordNoSkip gapExceeded) ⟨[], [], none⟩
  closeSeg st.segs st.current

/-- The drawing filter of renderSegments: if (seg.length < 2) continue
(app.js lines 262-263) -- the list of segments that get a polyline. -/
def renderKept (segs : List (List (ℚ × ℚ))) : List (List (ℚ × ℚ)) :=
  segs.filter fun seg => !decide (seg.length < 2)

/-- A gap function that never splits; instantiates GapFn in witnesses. -/
def gapNever : GapFn := fun _ _ => false

/-- A gap function that always splits; instantiates GapFn in witnesses. -/
def gapAlways : GapFn := fun _ _ => true

/-- floor((received / total) * 100) of app.js line 151, computed exactly; for
the integer magnitudes of one load the correctly-rounded double expression has
the same floor. -/
def pctFloor (total received : Nat) : Nat := received * 100 / total

/-- The progress updates issued inside the chunk loop of loadBinary
(app.js lines 144-154) when a total length is declared: received accumulates
chunk sizes, and updateLoading(p) fires only when p differs from lastShown.
The initial lastShown = -1 is modelled as none. -/
def progressLoop (total : Nat) : List Nat → Nat → Option Nat → List Nat
  | [], _, _ => []
  | c :: cs, received, lastShown =>
    let r := received + c
    let p := pctFloor total r
    if some p ≠ lastShown then p :: progressLoop total cs r (some p)
    else progressLoop total cs r lastShown

/-- The control paths of loadBinary (app.js lines 93-172): cache hit, the
no-ReadableStream fallback, streaming with a declared Content-Length, and
streaming without one. -/
inductive LoadPath where
  | cachedHit
  | noStreamFallback
  | streamKnown (total : Nat) (chunks : List Nat)
  | streamUnknown (chunks : List Nat)

/-- Well-formedness of a load path: the streaming branch with a declared total
is entered only when total > 0 (app.js lines 142, 150), and target.set throws
before any further progress computation if the body exceeded the declared
total, so on a completed load the chunk sizes sum to at most total. -/
def LoadPath.wf : LoadPath → Prop
  | .streamKnown total chunks => 0 < total ∧ chunks.sum ≤ total
  | _ => True

/-- The full sequence of percentages handed to updateLoading during one
loadBinary call: showLoading issues 0 (app.js lines 79-82, 94), then the loop
updates, then the unconditional updateLoading(100) of lines 115, 130, 159, 166
before the buffer is returned. -/
def loadProgressSeq : LoadPath → List Nat
  | .cachedHit => [0, 100]
  | .noStreamFallback => [0, 100]
  | .streamKnown total chunks => 0 :: (progressLoop total chunks 0 none ++ [100])
  | .streamUnknown _ => [0, 100]

/-- The total_km field of the summary JSON object: present or absent
(data.total_km ?? 0, app.js lines 288, 299). -/
abbrev SummaryData : Type := Option ℚ

/-- Outcome of the summary fetch: network failure (fetch threw), a non-ok
HTTP status, or an ok response whose JSON body parsed to some data (none when
res.json() threw). -/
inductive NetResult where
  | netFail
  | httpError
  | ok (parsed : Option SummaryData)

/-- What loadSummary writes into the total element: a numeric figure (its
rational value; toFixed formatting is external) or the placeholder. -/
inductive DisplayVal where
  | figure (v : ℚ)
  | placeholder
deriving DecidableEq

/-- True on every outcome in which the network path did not produce usable
data, so control falls through to the cache fallback of app.js lines 294-303. -/
def NetResult.fellThrough : NetResult → Bool
  | .ok (some _) => false
  | _ => true

/-- loadSummary of app.js lines 275-306: network-first display and best-effort
cache write, cache fallback, placeholder. Returns the displayed value and the
cache entry for the summary key after the call. -/
def loadSummary (net : NetResult) (cacheSt : Option SummaryData) :
    DisplayVal × Option SummaryData :=
  match net with
  | .ok (some data) => (.figure (data.getD 0), some data)
  | _ =>
    match cacheSt with
    | some data => (.figure (data.getD 0), cacheSt)
    | none => (.placeholder, cacheSt)

/-- The cache generation of the service worker, src/unnamed/part_000 line 2. -/
def swCacheName : String := "htmap-v2"

/-- The application-logic cache of app.js line 6. -/
def appCacheName : String := "htmap-v3-lines"

/-- The caches deleted by the activate listener of the service worker
(src/unnamed/part_000 lines 18-24): every existing cache key except the
service worker generation itself. -/
def activateDeleted (keys : List String) : List String :=
  keys.filter fun k => k ≠ swCacheName

/-- cache.put on the application cache (app.js lines 128, 160, 167, 180, 289):
overwrite the entry under the key, keep every other entry. -/
def cachePut (store : List (String × List (Fin 256))) (k : String)
    (v : List (Fin 256)) : List (String × List (Fin 256)) :=
  (store.filter fun e => e.1 ≠ k) ++ [(k, v)]

/-! ### Arithmetic facts about the decode path -/

theorem toInt32_range (n : Nat) (h : n < 4294967296) :
    -2147483648 ≤ toInt32 n ∧ toInt32 n ≤ 2147483647 := by
  unfold toInt32
  split <;> omega

theorem readUInt32le_lt (bytes : List (Fin 256)) (off : Nat) :
    readUInt32le bytes off < 4294967296 := by
  unfold readUInt32le readByte
  have h0 := (bytes.getD off 0).isLt
  have h1 := (bytes.getD (off + 1) 0).isLt
  have h2 := (bytes.getD (off + 2) 0).isLt
  have h3 := (bytes.getD (off + 3) 0).isLt
  omega

theorem decodeRecords_range (bytes : List (Fin 256)) :
    ∀ r ∈ decodeRecords bytes,
      (-2147483648 ≤ r.1 ∧ r.1 ≤ 2147483647) ∧
      (-2147483648 ≤ r.2 ∧ r.2 ≤ 2147483647) := by
  intro r hr
  unfold decodeRecords at hr
  simp only [List.mem_map, List.mem_range] at hr
  obtain ⟨i, -, rfl⟩ := hr
  exact ⟨toInt32_range _ (readUInt32le_lt bytes (8 * i)),
    toInt32_range _ (readUInt32le_lt bytes (8 * i + 4))⟩

theorem jsFinite_of_int32 (x : Int) (h1 : -2147483648 ≤ x) (h2 : x ≤ 2147483648) :
    jsFinite ((x : ℚ) / 10000000) = true := by
  unfold jsFinite
  simp only [decide_eq_true_eq]
  have hx : |(x : ℚ)| ≤ 2147483648 := by
    rw [abs_le]
    constructor
    · exact_mod_cast h1
    · exact_mod_cast h2
  have h7 : (0 : ℚ) < 10000000 := by norm_num
  rw [abs_div, abs_of_pos h7, div_lt_iff₀ h7]
  calc |(x : ℚ)| ≤ 2147483648 := hx
    _ < 2 ^ 1024 * 10000000 := by norm_num

/-! ### Behaviour of one step of the record loop -/

theorem stepRecord_sentinel (gap : GapFn) (st : ParseState) :
    stepRecord gap st (INT32_MIN, INT32_MIN) =
      ⟨closeSeg st.segs st.current, [], none⟩ := by
  simp [stepRecord]

theorem stepRecord_prev_none (gap : GapFn) (st : ParseState) (x y : Int)
    (hns : ¬(x = INT32_MIN ∧ y = INT32_MIN))
    (hx1 : -2147483648 ≤ x) (hx2 : x ≤ 2147483647)
    (hy1 : -2147483648 ≤ y) (hy2 : y ≤ 2147483647)
    (hprev : st.prev = none) :
    stepRecord gap st (x, y) =
      ⟨st.segs, st.current ++ [((x : ℚ) / 10000000, (y : ℚ) / 10000000)],
        some ((x : ℚ) / 10000000, (y : ℚ) / 10000000)⟩ := by
  obtain ⟨segs, current, prev⟩ := st
  change prev = none at hprev
  subst hprev
  have hfx := jsFinite_of_int32 x hx1 (by omega)
  have hfy := jsFinite_of_int32 y hy1 (by omega)
  simp [stepRecord, hns, hfx, hfy]

theorem stepRecord_no_split (gap : GapFn) (st : ParseState) (x y : Int) (p : ℚ × ℚ)
    (hns : ¬(x = INT32_MIN ∧ y = INT32_MIN))
    (hx1 : -2147483648 ≤ x) (hx2 : x ≤ 2147483647)
    (hy1 : -2147483648 ≤ y) (hy2 : y ≤ 2147483647)
    (hprev : st.prev = some p)
    (hgap : gap p ((x : ℚ) / 10000000, (y : ℚ) / 10000000) = false) :
    stepRecord gap st (x, y) =
      ⟨st.segs, st.current ++ [((x : ℚ) / 10000000, (y : ℚ) / 10000000)],
        some ((x : ℚ) / 10000000, (y : ℚ) / 10000000)⟩ := by
  obtain ⟨segs, current, prev⟩ := st
  change prev = some p at hprev
  subst hprev
  have hfx := jsFinite_of_int32 x hx1 (by omega)
  have hfy := jsFinite_of_int32 y hy1 (by omega)
  simp [stepRecord, hns, hfx, hfy, hgap]

theorem stepRecord_split (gap : GapFn) (st : ParseState) (x y : Int) (p : ℚ × ℚ)
    (hns : ¬(x = INT32_MIN ∧ y = INT32_MIN))
    (hx1 : -2147483648 ≤ x) (hx2 : x ≤ 2147483647)
    (hy1 : -2147483648 ≤ y) (hy2 : y ≤ 2147483647)
    (hprev : st.prev = some p)
    (hgap : gap p ((x : ℚ) / 10000000, (y : ℚ) / 10000000) = true) :
    stepRecord gap st (x, y) =
      ⟨closeSeg st.segs st.current,
        [((x : ℚ) / 10000000, (y : ℚ) / 10000000)],
        some ((x : ℚ) / 10000000, (y : ℚ) / 10000000)⟩ := by
  obtain ⟨segs, current, prev⟩ := st
  change prev = some p at hprev
  subst hprev
  have hfx := jsFinite_of_int32 x hx1 (by omega)
  have hfy := jsFinite_of_int32 y hy1 (by omega)
  simp [stepRecord, hns, hfx, hfy, hgap]

/-! ### Fold congruence and invariants -/

theorem foldl_ext_mem {α β : Type} (f g : β → α → β) (l : List α)
    (h : ∀ a ∈ l, ∀ b, f b a = g b a) : ∀ init, l.foldl f init = l.foldl g init := by
  induction l with
  | nil => intro init; rfl
  | cons a l ih =>
    intro init
    simp only [List.foldl]
    rw [h a (by simp)]
    exact ih (fun x hx b => h x (by simp [hx]) b) _

theorem stepRecord_eq_noSkip (gap : GapFn) (st : ParseState) (rec : Int × Int)
    (hx1 : -2147483648 ≤ rec.1) (hx2 : rec.1 ≤ 2147483647)
    (hy1 : -2147483648 ≤ rec.2) (hy2 : rec.2 ≤ 2147483647) :
    stepRecord gap st rec = stepRecordNoSkip gap st rec := by
  by_cases hs : rec.1 = INT32_MIN ∧ rec.2 = INT32_MIN
  · simp [stepRecord, stepRecordNoSkip, hs]
  · have hfx := jsFinite_of_int32 rec.1 hx1 (by omega)
    have hfy := jsFinite_of_int32 rec.2 hy1 (by omega)
    simp [stepRecord, stepRecordNoSkip, hs, hfx, hfy]

theorem closeSeg_invariant (segs : List (List (ℚ × ℚ))) (current : List (ℚ × ℚ))
    (h : ∀ s ∈ segs, 2 ≤ s.length) :
    ∀ s ∈ closeSeg segs current, 2 ≤ s.length := by
  unfold closeSeg
  split
  · intro s hs
    rcases List.mem_append.1 hs with h1 | h1
    · exact h s h1
    · simp only [List.mem_singleton] at h1
      subst h1
      omega
  · exact h

theorem stepRecord_segs_cases (gap : GapFn) (st : ParseState) (rec : Int × Int) :
    (stepRecord gap st rec).segs = st.segs ∨
    (stepRecord gap st rec).segs = closeSeg st.segs st.current := by
  obtain ⟨segs, current, prev⟩ := st
  cases prev with
  | none =>
    simp only [stepRecord]
    split
    · exact Or.inr rfl
    · split
      · exact Or.inl rfl
      · exact Or.inl rfl
  | some p =>
    simp only [stepRecord]
    split
    · exact Or.inr rfl
    · split
      · exact Or.inl rfl
      · cases hg : gap p ((rec.1 : ℚ) / 10000000, (rec.2 : ℚ) / 10000000) with
        | false => exact Or.inl (by simp [hg])
        | true => exact Or.inr (by simp [hg])

theorem stepRecord_segs_invariant (gap : GapFn) (st : ParseState) (rec : Int × Int)
    (h : ∀ s ∈ st.segs, 2 ≤ s.length) :
    ∀ s ∈ (stepRecord gap st rec).segs, 2 ≤ s.length := by
  rcases stepRecord_segs_cases gap st rec with hc | hc <;> rw [hc]
  · exact h
  · exact closeSeg_invariant st.segs st.current h

theorem foldl_segs_invariant (gap : GapFn) (recs : List (Int × Int)) :
    ∀ st : ParseState, (∀ s ∈ st.segs, 2 ≤ s.length) →
      ∀ s ∈ (recs.foldl (stepRecord gap) st).segs, 2 ≤ s.length := by
  induction recs with
  | nil => intro st h; simpa using h
  | cons r rs ih =>
    intro st h
    exact ih _ (stepRecord_segs_invariant gap st r h)

/-! ### Progress sequence lemmas -/

theorem pctFloor_mono (total : Nat) {r1 r2 : Nat} (h : r1 ≤ r2) :
    pctFloor total r1 ≤ pctFloor total r2 :=
  Nat.div_le_div_right (Nat.mul_le_mul_right 100 h)

theorem pctFloor_le_100 (total r : Nat) (ht : 0 < total) (h : r ≤ total) :
    pctFloor total r ≤ 100 := by
  unfold pctFloor
  calc r * 100 / total ≤ total * 100 / total :=
        Nat.div_le_div_right (Nat.mul_le_mul_right 100 h)
    _ = 100 := Nat.mul_div_cancel_left 100 ht

theorem progressLoop_mem_le (total : Nat) (ht : 0 < total) :
    ∀ (cs : List Nat) (r : Nat) (ls : Option Nat), r + cs.sum ≤ total →
      ∀ x ∈ progressLoop total cs r ls, x ≤ 100 := by
  intro cs
  induction cs with
  | nil => intro r ls _ x hx; simp [progressLoop] at hx
  | cons c cs ih =>
    intro r ls hsum x hx
    simp only [progressLoop, List.sum_cons] at hx hsum
    have hrc : r + c + cs.sum ≤ total := by omega
    split at hx
    · rcases List.mem_cons.1 hx with hx | hx
      · subst hx
        exact pctFloor_le_100 total (r + c) ht (by omega)
      · exact ih (r + c) _ hrc x hx
    · exact ih (r + c) _ hrc x hx

theorem progressLoop_mem_ge (total : Nat) :
    ∀ (cs : List Nat) (r : Nat) (ls : Option Nat),
      ∀ x ∈ progressLoop total cs r ls, pctFloor total r ≤ x := by
  intro cs
  induction cs with
  | nil => intro r ls x hx; simp [progressLoop] at hx
  | cons c cs ih =>
    intro r ls x hx
    simp only [progressLoop] at hx
    have hle : pctFloor total r ≤ pctFloor total (r + c) :=
      pctFloor_mono total (by omega)
    split at hx
    · rcases List.mem_cons.1 hx with hx | hx
      · subst hx; exact hle
      · exact le_trans hle (ih (r + c) _ x hx)
    · exact le_trans hle (ih (r + c) _ x hx)

theorem progressLoop_head_ne (total : Nat) :
    ∀ (cs : List Nat) (r p : Nat),
      ∀ y ∈ (progressLoop total cs r (some p)).head?, y ≠ p := by
  intro cs
  induction cs with
  | nil => intro r p y hy; simp [progressLoop] at hy
  | cons c cs ih =>
    intro r p y hy
    simp only [progressLoop] at hy
    split at hy
    · simp only [List.head?_cons, Option.mem_def, Option.some.injEq] at hy
      subst hy
      rename_i hne
      intro hep
      exact hne (by rw [hep])
    · exact ih (r + c) p y hy

theorem progressLoop_chain_lt (total : Nat) :
    ∀ (cs : List Nat) (r : Nat) (ls : Option Nat),
      (progressLoop total cs r ls).Chain' (· < ·) := by
  intro cs
  induction cs with
  | nil => intro r ls; simp [progressLoop]
  | cons c cs ih =>
    intro r ls
    simp only [progressLoop]
    split
    · rw [List.chain'_cons']
      refine ⟨?_, ih (r + c) _⟩
      intro y hy
      have h1 : pctFloor total (r + c) ≤ y :=
        progressLoop_mem_ge total cs (r + c) _ y (List.mem_of_mem_head? hy)
      have h2 : y ≠ pctFloor total (r + c) :=
        progressLoop_head_ne total cs (r + c) _ y hy
      omega
    · exact ih (r + c) _

theorem progressLoop_chain_le (total : Nat) (cs : List Nat) (r : Nat) (ls : Option Nat) :
    (progressLoop total cs r ls).Chain' (· ≤ ·) :=
  (progressLoop_chain_lt total cs r ls).imp fun _ _ h => le_of_lt h

/-! ### Reads from a truncated buffer -/

theorem getD_take {α : Type} (l : List α) (n i : Nat) (d : α) (h : i < n) :
    (l.take n).getD i d = l.getD i d := by
  rw [List.getD_eq_getElem?_getD, List.getD_eq_getElem?_getD,
    List.getElem?_take_of_lt h]

/-! ### Claim theorems -/

/-- C1: whenever the decoder reads a record whose two fields both equal the
sentinel -2147483648, it closes the current open segment (appending it to the
track set only if it has at least 2 points), resets the current segment to
empty and the previous point to none, and continues; in particular a single
record followed by a sentinel contributes no segment. -/
theorem c1_sentinel_closes_and_resets :
    (∀ (gap : GapFn) (st : ParseState),
      stepRecord gap st (INT32_MIN, INT32_MIN) =
        ⟨closeSeg st.segs st.current, [], none⟩) ∧
    (∀ (gap : GapFn) (r : Int × Int),
      parseRecords gap [r, (INT32_MIN, INT32_MIN)] = []) := by
  refine ⟨stepRecord_sentinel, ?_⟩
  intro gap r
  have h1 : (stepRecord gap ⟨[], [], none⟩ r).segs = [] ∧
      (stepRecord gap ⟨[], [], none⟩ r).current.length ≤ 1 := by
    constructor
    · rcases stepRecord_segs_cases gap ⟨[], [], none⟩ r with hc | hc <;>
        simp [hc, closeSeg]
    · unfold stepRecord
      split
      · simp
      · split <;> (dsimp only; split <;> simp)
  obtain ⟨ha, hb⟩ := h1
  unfold parseRecords
  simp only [List.foldl]
  rw [stepRecord_sentinel]
  have h2 : closeSeg (stepRecord gap ⟨[], [], none⟩ r).segs
      (stepRecord gap ⟨[], [], none⟩ r).current = [] := by
    unfold closeSeg
    rw [ha, if_neg (by omega)]
  simp only [h2]
  simp [closeSeg]

/-- C2: whenever a previous point exists and the gap test (the haversine
great-circle distance against the 2000 m threshold, abstracted as the gap
function) fires between it and the current decoded point, the decoder closes
the current segment (kept only if it has at least 2 points) and starts a new
segment containing only the current point. -/
theorem c2_gap_split_starts_new_segment (gap : GapFn) (st : ParseState)
    (x y : Int) (p : ℚ × ℚ)
    (hns : ¬(x = INT32_MIN ∧ y = INT32_MIN))
    (hx1 : -2147483648 ≤ x) (hx2 : x ≤ 2147483647)
    (hy1 : -2147483648 ≤ y) (hy2 : y ≤ 2147483647)
    (hprev : st.prev = some p)
    (hgap : gap p ((x : ℚ) / 10000000, (y : ℚ) / 10000000) = true) :
    stepRecord gap st (x, y) =
      ⟨closeSeg st.segs st.current,
        [((x : ℚ) / 10000000, (y : ℚ) / 10000000)],
        some ((x : ℚ) / 10000000, (y : ℚ) / 10000000)⟩ :=
  stepRecord_split gap st x y p hns hx1 hx2 hy1 hy2 hprev hgap

/-- Witness for C2 at a concrete state and record. -/
theorem c2_gap_split_starts_new_segment_witness :
    ((¬((1000 : Int) = INT32_MIN ∧ (2000 : Int) = INT32_MIN)) ∧
      gapAlways ((1 : ℚ), (1 : ℚ))
        (((1000 : Int) : ℚ) / 10000000, ((2000 : Int) : ℚ) / 10000000) = true) ∧
    stepRecord gapAlways
        ⟨[], [((0 : ℚ), (0 : ℚ)), ((1 : ℚ), (1 : ℚ))], some ((1 : ℚ), (1 : ℚ))⟩
        ((1000 : Int), (2000 : Int)) =
      ⟨closeSeg [] [((0 : ℚ), (0 : ℚ)), ((1 : ℚ), (1 : ℚ))],
        [(((1000 : Int) : ℚ) / 10000000, ((2000 : Int) : ℚ) / 10000000)],
        some (((1000 : Int) : ℚ) / 10000000, ((2000 : Int) : ℚ) / 10000000)⟩ :=
  ⟨⟨by decide, rfl⟩,
    c2_gap_split_starts_new_segment gapAlways
      ⟨[], [((0 : ℚ), (0 : ℚ)), ((1 : ℚ), (1 : ℚ))], some ((1 : ℚ), (1 : ℚ))⟩
      1000 2000 ((1 : ℚ), (1 : ℚ)) (by decide) (by decide) (by decide)
      (by decide) (by decide) rfl rfl⟩

/-- C4: decoding a byte buffer whose length is not a multiple of 8 yields
exactly the same track set as decoding the buffer truncated to the greatest
multiple of 8; trailing bytes shorter than one record are ignored and are not
an error. -/
theorem c4_trailing_bytes_ignored (gap : GapFn) (bytes : List (Fin 256)) :
    parseSegments gap (bytes.take (8 * (bytes.length / 8))) =
      parseSegments gap bytes := by
  unfold parseSegments
  congr 1
  unfold decodeRecords
  have hle : 8 * (bytes.length / 8) ≤ bytes.length := by omega
  have hlen : (bytes.take (8 * (bytes.length / 8))).length = 8 * (bytes.length / 8) := by
    rw [List.length_take]
    omega
  rw [hlen]
  have hdiv : 8 * (bytes.length / 8) / 8 = bytes.length / 8 := by omega
  rw [hdiv]
  apply List.map_congr_left
  intro i hi
  rw [List.mem_range] at hi
  have h0 : ∀ j, j < 8 * (bytes.length / 8) →
      (bytes.take (8 * (bytes.length / 8))).getD j 0 = bytes.getD j 0 :=
    fun j hj => getD_take bytes (8 * (bytes.length / 8)) j 0 hj
  simp only [getInt32, readUInt32le, readByte]
  rw [h0 (8 * i) (by omega), h0 (8 * i + 1) (by omega), h0 (8 * i + 2) (by omega),
    h0 (8 * i + 3) (by omega), h0 (8 * i + 4) (by omega), h0 (8 * i + 4 + 1) (by omega),
    h0 (8 * i + 4 + 2) (by omega), h0 (8 * i + 4 + 3) (by omega)]

theorem mem_of_mem_getLastOpt {l : List Nat} {x : Nat} (h : x ∈ l.getLast?) :
    x ∈ l := by
  obtain ⟨hne, hx⟩ := List.mem_getLast?_eq_getLast h
  subst hx
  exact List.getLast_mem hne

theorem seq_0_100_contract :
    (∀ v ∈ ([0, 100] : List Nat), v ≤ 100) ∧
    ([0, 100] : List Nat).Chain' (· ≤ ·) ∧
    ([0, 100] : List Nat).getLast? = some 100 := by
  refine ⟨?_, ?_, rfl⟩
  · intro v hv
    rcases List.mem_cons.1 hv with rfl | hv
    · omega
    · rw [List.mem_singleton] at hv
      omega
  · rw [List.chain'_cons]
    exact ⟨by omega, List.chain'_singleton 100⟩

/-- C5: for every load path, over every sequence of chunks, the sequence of
integer percentages delivered to the progress callback lies in [0,100], is
non-decreasing, and its final value is exactly 100, delivered before the
buffer is returned to the caller. -/
theorem c5_progress_contract (path : LoadPath) (h : path.wf) :
    (∀ v ∈ loadProgressSeq path, v ≤ 100) ∧
    (loadProgressSeq path).Chain' (· ≤ ·) ∧
    (loadProgressSeq path).getLast? = some 100 := by
  cases path with
  | cachedHit => exact seq_0_100_contract
  | noStreamFallback => exact seq_0_100_contract
  | streamUnknown chunks => exact seq_0_100_contract
  | streamKnown total chunks =>
    obtain ⟨ht, hsum⟩ := h
    refine ⟨?_, ?_, ?_⟩
    · intro v hv
      simp only [loadProgressSeq] at hv
      rcases List.mem_cons.1 hv with hv | hv
      · omega
      · rcases List.mem_append.1 hv with hv | hv
        · exact progressLoop_mem_le total ht chunks 0 none (by omega) v hv
        · simp only [List.mem_singleton] at hv
          omega
    · simp only [loadProgressSeq]
      rw [List.chain'_cons']
      refine ⟨fun y _ => Nat.zero_le y, ?_⟩
      apply List.Chain'.append (progressLoop_chain_le total chunks 0 none)
        (List.chain'_singleton 100)
      intro x hx y hy
      have hx2 : x ∈ progressLoop total chunks 0 none := mem_of_mem_getLastOpt hx
      have hx100 : x ≤ 100 :=
        progressLoop_mem_le total ht chunks 0 none (by omega) x hx2
      simp only [List.head?_cons, Option.mem_def, Option.some.injEq] at hy
      omega
    · simp only [loadProgressSeq]
      rw [← List.cons_append, List.getLast?_concat]

/-- Witness for C5 at a concrete load with a declared total and three chunks. -/
theorem c5_progress_contract_witness :
    (LoadPath.streamKnown 10 [3, 3, 4]).wf ∧
    ((∀ v ∈ loadProgressSeq (.streamKnown 10 [3, 3, 4]), v ≤ 100) ∧
      (loadProgressSeq (.streamKnown 10 [3, 3, 4])).Chain' (· ≤ ·) ∧
      (loadProgressSeq (.streamKnown 10 [3, 3, 4])).getLast? = some 100) :=
  ⟨⟨by decide, by decide⟩,
    c5_progress_contract (.streamKnown 10 [3, 3, 4]) ⟨by decide, by decide⟩⟩

/-- C6 counterexample: for a load fully delivered in one chunk the callback
receives 100 inside the loop and then again from the unconditional
updateLoading(100) after the loop, so the delivered sequence 0, 100, 100 does
repeat a value and the callback is invoked twice in a row with the same
value. -/
theorem c6_counterexample_repeated_100 :
    loadProgressSeq (.streamKnown 8 [8]) = [0, 100, 100] ∧
    ¬ (loadProgressSeq (.streamKnown 8 [8])).Chain' (fun a b => a ≠ b) := by
  have hseq : loadProgressSeq (.streamKnown 8 [8]) = [0, 100, 100] := by decide
  refine ⟨hseq, ?_⟩
  intro hc
  rw [hseq, List.chain'_cons, List.chain'_cons] at hc
  exact hc.2.1 rfl

/-- C6 amended: inside the chunk-reading loop the callback is invoked only
when the integer percentage floor(received / total * 100) changes, and the
in-loop values strictly increase; only the initial 0 of showLoading and the
unconditional final updateLoading(100) after the loop may repeat an
already-shown value. -/
theorem c6_loop_updates_strictly_increase (total : Nat) (chunks : List Nat) :
    (progressLoop total chunks 0 none).Chain' (· < ·) :=
  progressLoop_chain_lt total chunks 0 none

/-- C7: the summary load is network-first: on network success it displays the
total-distance figure (a missing field defaulting to 0) and persists it to the
cache store; on a fallen-through network outcome with a cached prior value it
displays the cached value; with neither it displays the placeholder. The
function is total, so the page never fails. -/
theorem c7_summary_network_first :
    (∀ (d : SummaryData) (c : Option SummaryData),
      loadSummary (.ok (some d)) c = (.figure (d.getD 0), some d)) ∧
    (∀ (n : NetResult) (d : SummaryData), n.fellThrough = true →
      (loadSummary n (some d)).1 = .figure (d.getD 0)) ∧
    (∀ n : NetResult, n.fellThrough = true →
      (loadSummary n none).1 = .placeholder) := by
  refine ⟨fun d c => rfl, ?_, ?_⟩
  · intro n d hn
    cases n with
    | netFail => rfl
    | httpError => rfl
    | ok parsed =>
      cases parsed with
      | none => rfl
      | some x => simp [NetResult.fellThrough] at hn
  · intro n hn
    cases n with
    | netFail => rfl
    | httpError => rfl
    | ok parsed =>
      cases parsed with
      | none => rfl
      | some x => simp [NetResult.fellThrough] at hn

/-- Witness for C7 on the network-failure-with-cache branch. -/
theorem c7_summary_network_first_witness :
    NetResult.fellThrough .netFail = true ∧
    (loadSummary .netFail (some (some (5 : ℚ)))).1 =
      DisplayVal.figure ((some (5 : ℚ)).getD 0) :=
  ⟨rfl, c7_summary_network_first.2.1 .netFail (some (5 : ℚ)) rfl⟩

/-- C8: every segment in the track set produced by one decode pass contains at
least 2 points, and the renderer filter drops nothing because nothing
degenerate ever reaches it. -/
theorem c8_all_segments_length_ge_two (gap : GapFn) (bytes : List (Fin 256)) :
    (∀ s ∈ parseSegments gap bytes, 2 ≤ s.length) ∧
    renderKept (parseSegments gap bytes) = parseSegments gap bytes := by
  have hmain : ∀ s ∈ parseSegments gap bytes, 2 ≤ s.length := by
    unfold parseSegments parseRecords
    exact closeSeg_invariant _ _
      (foldl_segs_invariant gap (decodeRecords bytes) ⟨[], [], none⟩ (by simp))
  refine ⟨hmain, ?_⟩
  rw [renderKept, List.filter_eq_self]
  intro s hs
  have h2 := hmain s hs
  simp only [Bool.not_eq_true', decide_eq_false_iff_not]
  omega

/-- Witness for C8 on a 16-byte buffer holding two nearby points. -/
theorem c8_all_segments_length_ge_two_witness :
    ([(((0 : Int) : ℚ) / 10000000, ((0 : Int) : ℚ) / 10000000),
      (((100 : Int) : ℚ) / 10000000, ((100 : Int) : ℚ) / 10000000)] ∈
      parseSegments gapNever
        [0, 0, 0, 0, 0, 0, 0, 0, 100, 0, 0, 0, 100, 0, 0, 0]) ∧
    2 ≤ ([(((0 : Int) : ℚ) / 10000000, ((0 : Int) : ℚ) / 10000000),
      (((100 : Int) : ℚ) / 10000000,
        ((100 : Int) : ℚ) / 10000000)] : List (ℚ × ℚ)).length := by
  have hdec : decodeRecords [0, 0, 0, 0, 0, 0, 0, 0, 100, 0, 0, 0, 100, 0, 0, 0] =
      [((0 : Int), (0 : Int)), ((100 : Int), (100 : Int))] := by decide
  have hmem : [(((0 : Int) : ℚ) / 10000000, ((0 : Int) : ℚ) / 10000000),
      (((100 : Int) : ℚ) / 10000000, ((100 : Int) : ℚ) / 10000000)] ∈
      parseSegments gapNever
        [0, 0, 0, 0, 0, 0, 0, 0, 100, 0, 0, 0, 100, 0, 0, 0] := by
    unfold parseSegments
    rw [hdec]
    unfold parseRecords
    simp only [List.foldl]
    rw [stepRecord_prev_none gapNever ⟨[], [], none⟩ 0 0 (by decide) (by decide)
      (by decide) (by decide) (by decide) rfl]
    rw [stepRecord_no_split gapNever _ 100 100
      (((0 : Int) : ℚ) / 10000000, ((0 : Int) : ℚ) / 10000000) (by decide)
      (by decide) (by decide) (by decide) (by decide) rfl rfl]
    simp [closeSeg]
  exact ⟨hmem,
    (c8_all_segments_length_ge_two gapNever
      [0, 0, 0, 0, 0, 0, 0, 0, 100, 0, 0, 0, 100, 0, 0, 0]).1 _ hmem⟩

/-- C9: the non-finite skip branch of the decoder is unreachable: every field
read from the buffer is a 32-bit signed integer, its division by 1e7 always
passes the finiteness check, so the decoder behaves exactly like the variant
with the skip branch removed and every non-sentinel record produces a point. -/
theorem c9_nonfinite_skip_unreachable (gap : GapFn) (bytes : List (Fin 256)) :
    parseSegments gap bytes = parseSegmentsNoSkip gap bytes := by
  unfold parseSegments parseRecords parseSegmentsNoSkip
  have h : (decodeRecords bytes).foldl (stepRecord gap) ⟨[], [], none⟩ =
      (decodeRecords bytes).foldl (stepRecordNoSkip gap) ⟨[], [], none⟩ := by
    apply foldl_ext_mem
    intro r hr st
    obtain ⟨⟨h1, h2⟩, h3, h4⟩ := decodeRecords_range bytes r hr
    exact stepRecord_eq_noSkip gap st r h1 h2 h3 h4
  rw [h]

/-- C10: a record in which exactly one of the two fields equals -2147483648
(either orientation: sentinel-valued latitude field or sentinel-valued
longitude field) is not treated as a sentinel: it is decoded as an ordinary
point whose sentinel-valued coordinate is -214.7483648 degrees, and the
decoder performs no range validation, so coordinates outside
[-90,90] x [-180,180] are retained in segments; shown at the step level for
both orientations and at the run level for a two-record stream of each
orientation. -/
theorem c10_half_sentinel_is_ordinary_point (gap : GapFn) (st : ParseState)
    (y : Int) (hy : y ≠ INT32_MIN)
    (hy1 : -2147483648 ≤ y) (hy2 : y ≤ 2147483647)
    (hprev : st.prev = none) :
    stepRecord gap st (INT32_MIN, y) =
      ⟨st.segs,
        st.current ++ [((INT32_MIN : ℚ) / 10000000, (y : ℚ) / 10000000)],
        some ((INT32_MIN : ℚ) / 10000000, (y : ℚ) / 10000000)⟩ ∧
    stepRecord gap st (y, INT32_MIN) =
      ⟨st.segs,
        st.current ++ [((y : ℚ) / 10000000, (INT32_MIN : ℚ) / 10000000)],
        some ((y : ℚ) / 10000000, (INT32_MIN : ℚ) / 10000000)⟩ ∧
    (INT32_MIN : ℚ) / 10000000 = -2147483648 / 10000000 ∧
    (INT32_MIN : ℚ) / 10000000 < -90 ∧
    (INT32_MIN : ℚ) / 10000000 < -180 ∧
    (∀ gap2 : GapFn,
      gap2 ((INT32_MIN : ℚ) / 10000000, ((0 : Int) : ℚ) / 10000000)
          ((INT32_MIN : ℚ) / 10000000, ((100 : Int) : ℚ) / 10000000) = false →
      parseRecords gap2 [(INT32_MIN, (0 : Int)), (INT32_MIN, (100 : Int))] =
        [[((INT32_MIN : ℚ) / 10000000, ((0 : Int) : ℚ) / 10000000),
          ((INT32_MIN : ℚ) / 10000000, ((100 : Int) : ℚ) / 10000000)]]) ∧
    (∀ gap2 : GapFn,
      gap2 (((0 : Int) : ℚ) / 10000000, (INT32_MIN : ℚ) / 10000000)
          (((100 : Int) : ℚ) / 10000000, (INT32_MIN : ℚ) / 10000000) = false →
      parseRecords gap2 [((0 : Int), INT32_MIN), ((100 : Int), INT32_MIN)] =
        [[(((0 : Int) : ℚ) / 10000000, (INT32_MIN : ℚ) / 10000000),
          (((100 : Int) : ℚ) / 10000000, (INT32_MIN : ℚ) / 10000000)]]) := by
  refine ⟨?_, ?_, ?_, ?_, ?_, ?_, ?_⟩
  · exact stepRecord_prev_none gap st INT32_MIN y (fun h => hy h.2)
      (by decide) (by decide) hy1 hy2 hprev
  · exact stepRecord_prev_none gap st y INT32_MIN (fun h => hy h.1)
      hy1 hy2 (by decide) (by decide) hprev
  · norm_num [INT32_MIN]
  · norm_num [INT32_MIN]
  · norm_num [INT32_MIN]
  · intro gap2 hg
    unfold parseRecords
    simp only [List.foldl]
    rw [stepRecord_prev_none gap2 ⟨[], [], none⟩ INT32_MIN 0 (by decide)
      (by decide) (by decide) (by decide) (by decide) rfl]
    rw [stepRecord_no_split gap2 _ INT32_MIN 100
      ((INT32_MIN : ℚ) / 10000000, ((0 : Int) : ℚ) / 10000000) (by decide)
      (by decide) (by decide) (by decide) (by decide) rfl hg]
    simp [closeSeg]
  · intro gap2 hg
    unfold parseRecords
    simp only [List.foldl]
    rw [stepRecord_prev_none gap2 ⟨[], [], none⟩ 0 INT32_MIN (by decide)
      (by decide) (by decide) (by decide) (by decide) rfl]
    rw [stepRecord_no_split gap2 _ 100 INT32_MIN
      (((0 : Int) : ℚ) / 10000000, (INT32_MIN : ℚ) / 10000000) (by decide)
      (by decide) (by decide) (by decide) (by decide) rfl hg]
    simp [closeSeg]

/-- Witness for C10 at the records (-2147483648, 0) and (0, -2147483648) from
the empty state. -/
theorem c10_half_sentinel_is_ordinary_point_witness :
    ((0 : Int) ≠ INT32_MIN) ∧
    (stepRecord gapNever ⟨[], [], none⟩ (INT32_MIN, 0) =
        ⟨[], [] ++ [((INT32_MIN : ℚ) / 10000000, ((0 : Int) : ℚ) / 10000000)],
          some ((INT32_MIN : ℚ) / 10000000, ((0 : Int) : ℚ) / 10000000)⟩ ∧
      stepRecord gapNever ⟨[], [], none⟩ (0, INT32_MIN) =
        ⟨[], [] ++ [(((0 : Int) : ℚ) / 10000000, (INT32_MIN : ℚ) / 10000000)],
          some (((0 : Int) : ℚ) / 10000000, (INT32_MIN : ℚ) / 10000000)⟩ ∧
      (INT32_MIN : ℚ) / 10000000 = -2147483648 / 10000000 ∧
      (INT32_MIN : ℚ) / 10000000 < -90 ∧
      (INT32_MIN : ℚ) / 10000000 < -180 ∧
      (∀ gap2 : GapFn,
        gap2 ((INT32_MIN : ℚ) / 10000000, ((0 : Int) : ℚ) / 10000000)
            ((INT32_MIN : ℚ) / 10000000, ((100 : Int) : ℚ) / 10000000) = false →
        parseRecords gap2 [(INT32_MIN, (0 : Int)), (INT32_MIN, (100 : Int))] =
          [[((INT32_MIN : ℚ) / 10000000, ((0 : Int) : ℚ) / 10000000),
            ((INT32_MIN : ℚ) / 10000000, ((100 : Int) : ℚ) / 10000000)]]) ∧
      (∀ gap2 : GapFn,
        gap2 (((0 : Int) : ℚ) / 10000000, (INT32_MIN : ℚ) / 10000000)
            (((100 : Int) : ℚ) / 10000000, (INT32_MIN : ℚ) / 10000000) = false →
        parseRecords gap2 [((0 : Int), INT32_MIN), ((100 : Int), INT32_MIN)] =
          [[(((0 : Int) : ℚ) / 10000000, (INT32_MIN : ℚ) / 10000000),
            (((100 : Int) : ℚ) / 10000000, (INT32_MIN : ℚ) / 10000000)]])) :=
  ⟨by decide, c10_half_sentinel_is_ordinary_point gapNever ⟨[], [], none⟩ 0
    (by decide) (by decide) (by decide) rfl⟩

/-- C3: evaluation of the service worker activate garbage collection at the
deployed cache names: the application cache name htmap-v3-lines differs from
the service worker generation htmap-v2, so the activate listener deletes the
application-logic cache, contradicting the claim that no operation of the
system ever deletes its entries. -/
theorem c3_activation_deletes_app_cache :
    appCacheName ∈ activateDeleted [swCacheName, appCacheName] ∧
    appCacheName ≠ swCacheName := by
  constructor
  · decide
  · decide
